import Mathlib

/-!
Shallow embedding of `outpath.py` (GRRM → XYZ trajectory converter).

The program reads a GRRM log, extracts the initial transition-state (TS)
geometry, the forward-IRC steps and the backward-IRC steps, and writes two
multi-frame XYZ trajectory files.  We embed the parser (`parse_grrm` with its
inner `collect` helper), the writer (`write_xyz`) and the frame assembly of
`main` over a `List String` of input lines.

Modelling conventions:
* Python floats are modelled as `ℚ`; `float(tok)` becomes the decimal/exponent
  parser `pyFloat?`, and `f"{q:.6f}"` becomes `formatChars6` (rounding to six
  decimals; the tie-breaking of binary doubles is not observable in any claim).
* Python exceptions (`IndexError` from out-of-range indexing, `ValueError`
  from `float(...)` on a malformed token, `TypeError` from formatting `None`)
  are modelled by the `PyErr` error type in `Except`.
* `write_xyz` returns the lines written so far together with an optional
  error, since the count line of a frame is emitted before its energy is
  formatted.
-/

set_option allowUnsafeReducibility true in
attribute [semireducible] Rat.add Rat.mul Rat.inv Rat.sub Rat.ofScientific

namespace Grrm

/-- Python whitespace as used by `str.split()` / `str.strip()` (ASCII part). -/
def pyWs (c : Char) : Bool :=
  c == ' ' || c == '\t' || c == '\n' || c == '\r' || c == '\x0b' || c == '\x0c'

/-- Tokenizer worker for Python `str.split()`: splits on runs of whitespace,
dropping empty tokens.  `acc` holds the (reversed) current token. -/
def tokensAux : List Char → List Char → List (List Char)
  | acc, [] => if acc = [] then [] else [acc.reverse]
  | acc, c :: cs =>
    if pyWs c then
      if acc = [] then tokensAux [] cs else acc.reverse :: tokensAux [] cs
    else tokensAux (c :: acc) cs

/-- Python `line.split()` (no separator argument). -/
def pyTokens (s : String) : List String :=
  (tokensAux [] s.data).map String.mk

/-- Strip leading and trailing whitespace from a character list. -/
def stripChars (cs : List Char) : List Char :=
  ((cs.dropWhile pyWs).reverse.dropWhile pyWs).reverse

/-- Python `s.strip()`. -/
def pyStrip (s : String) : String := String.mk (stripChars s.data)

/-- List-of-characters prefix test. -/
def hasPrefixChars : List Char → List Char → Bool
  | [], _ => true
  | _ :: _, [] => false
  | a :: as, b :: bs => a == b && hasPrefixChars as bs

/-- Substring test on character lists: does `needle` occur in the list? -/
def hasSubChars (needle : List Char) : List Char → Bool
  | [] => hasPrefixChars needle []
  | c :: cs => hasPrefixChars needle (c :: cs) || hasSubChars needle cs

/-- Python `needle in hay` for strings. -/
def strContains (needle hay : String) : Bool := hasSubChars needle.data hay.data

/-- Python `s.startswith(pre)`. -/
def pyStartsWith (pre s : String) : Bool := hasPrefixChars pre.data s.data

/-- The element-symbol test `re.match(r'^[A-Z][a-z]?$', tok)` of the source:
one ASCII uppercase letter optionally followed by one lowercase letter. -/
def isElem (s : String) : Bool :=
  match s.data with
  | [c] => c.isUpper
  | [c, d] => c.isUpper && d.isLower
  | _ => false

/-- Numeric value of an ASCII digit character. -/
def digitVal (c : Char) : Nat := c.toNat - 48

/-- One step of reading a decimal digit string. -/
def digitStep (a : Nat) (c : Char) : Nat := a * 10 + digitVal c

/-- Read a decimal digit string (most significant first). -/
def natOfDigits (cs : List Char) : Nat := cs.foldl digitStep 0

/-- Produce the decimal digits of a positive number in front of `acc`. -/
def natToDigitsAux : Nat → List Char → List Char
  | 0, acc => acc
  | n + 1, acc => natToDigitsAux ((n + 1) / 10) (Char.ofNat (48 + (n + 1) % 10) :: acc)
termination_by n _ => n
decreasing_by exact Nat.lt_of_lt_of_le (Nat.div_lt_self (Nat.succ_pos n) (by omega)) (Nat.le_refl _)

/-- Decimal rendering of a natural number (model of Python `str(n)`). -/
def natToDigits (n : Nat) : List Char :=
  if n = 0 then ['0'] else natToDigitsAux n []

/-- Left-pad a digit string with `'0'` up to width `w`. -/
def padZerosL (w : Nat) (cs : List Char) : List Char :=
  List.replicate (w - cs.length) '0' ++ cs

/-- Parse an unsigned decimal mantissa: `digits`, `digits.digits`,
`digits.` or `.digits` (at least one digit overall). -/
def parseMantissa? (cs : List Char) : Option ℚ :=
  let ip := cs.takeWhile (fun c => !(c = '.'))
  match cs.dropWhile (fun c => !(c = '.')) with
  | [] =>
    if !ip.isEmpty && ip.all Char.isDigit then some ((natOfDigits ip : ℚ)) else none
  | _ :: fp =>
    if (!ip.isEmpty || !fp.isEmpty) && ip.all Char.isDigit && fp.all Char.isDigit then
      some ((natOfDigits ip : ℚ) + (natOfDigits fp : ℚ) / (10 : ℚ) ^ fp.length)
    else none

/-- Parse an optionally signed decimal exponent. -/
def parseExpPart? (cs : List Char) : Option ℤ :=
  match cs with
  | [] => none
  | c :: ds =>
    if c = '+' then
      if !ds.isEmpty && ds.all Char.isDigit then some ((natOfDigits ds : ℤ)) else none
    else if c = '-' then
      if !ds.isEmpty && ds.all Char.isDigit then some (-(natOfDigits ds : ℤ)) else none
    else
      if (c :: ds).all Char.isDigit then some ((natOfDigits (c :: ds) : ℤ)) else none

/-- Parse an unsigned float with optional `e`/`E` exponent. -/
def parseUnsigned? (cs : List Char) : Option ℚ :=
  let m := cs.takeWhile (fun c => !(c = 'e') && !(c = 'E'))
  match cs.dropWhile (fun c => !(c = 'e') && !(c = 'E')) with
  | [] => parseMantissa? m
  | _ :: ep =>
    match parseMantissa? m, parseExpPart? ep with
    | some q, some z => some (q * (10 : ℚ) ^ z)
    | _, _ => none

/-- Model of Python `float(...)` on a whitespace-free token: optional sign,
decimal mantissa, optional exponent.  `none` models a `ValueError`. -/
def pyFloatChars? (cs : List Char) : Option ℚ :=
  match cs with
  | [] => none
  | c :: rest =>
    if c = '+' then parseUnsigned? rest
    else if c = '-' then (parseUnsigned? rest).map (fun q => -q)
    else parseUnsigned? (c :: rest)

/-- Model of Python `float(s)`. -/
def pyFloat? (s : String) : Option ℚ := pyFloatChars? s.data

/-- The integer of six-decimal rounding: `round(q * 10^6)`. -/
def round6 (q : ℚ) : ℤ := round (q * 1000000)

/-- The rational value obtained by rounding `q` to six decimals. -/
def q6 (q : ℚ) : ℚ := (round6 q : ℚ) / 1000000

/-- Model of Python `f"{q:.6f}"`: sign, integer digits, `'.'`, six fraction
digits. -/
def formatChars6 (q : ℚ) : List Char :=
  let n := round6 q
  let m := n.natAbs
  let body := natToDigits (m / 1000000) ++ '.' :: padZerosL 6 (natToDigits (m % 1000000))
  if n < 0 then '-' :: body else body

/-- String version of `formatChars6`. -/
def formatFloat6 (q : ℚ) : String := String.mk (formatChars6 q)

instance exceptDecEq {ε α : Type} [DecidableEq ε] [DecidableEq α] :
    DecidableEq (Except ε α) := fun x y =>
  match x, y with
  | .error a, .error b =>
    if h : a = b then .isTrue (by rw [h]) else .isFalse (by simp [h])
  | .ok a, .ok b =>
    if h : a = b then .isTrue (by rw [h]) else .isFalse (by simp [h])
  | .error _, .ok _ => .isFalse (by simp)
  | .ok _, .error _ => .isFalse (by simp)

/-- The Python exceptions the program can raise. -/
inductive PyErr where
  | indexError
  | valueError
  | typeError
deriving DecidableEq, Repr

/-- One parsed atom: element symbol and Cartesian coordinates. -/
structure Atom where
  el : String
  x : ℚ
  y : ℚ
  z : ℚ
deriving DecidableEq, Repr

/-- One IRC step: energy paired with its geometry. -/
abbrev Step := ℚ × List Atom

/-- `float(parts[i])`: `IndexError` when `i` is out of range, `ValueError`
when the token is not a float literal. -/
def pyFloatAt (parts : List String) (i : Nat) : Except PyErr ℚ :=
  match parts.get? i with
  | none => .error .indexError
  | some t =>
    match pyFloat? t with
    | none => .error .valueError
    | some q => .ok q

/-- `(parts[0], float(parts[1]), float(parts[2]), float(parts[3]))`,
evaluated left to right as in Python. -/
def parseAtom (parts : List String) : Except PyErr Atom :=
  match parts with
  | [] => .error .indexError
  | el :: _ =>
    match pyFloatAt parts 1 with
    | .error e => .error e
    | .ok x =>
      match pyFloatAt parts 2 with
      | .error e => .error e
      | .ok y =>
        match pyFloatAt parts 3 with
        | .error e => .error e
        | .ok z => .ok ⟨el, x, y, z⟩

/-- The atom the TS/step scanner would extract from one line, if any:
`none` when the line is blank, its first token is not an element symbol, or
its numeric tokens fail to parse. -/
def atomOfLine (l : String) : Option Atom :=
  match pyTokens l with
  | [] => none
  | p0 :: ps => if isElem p0 then (parseAtom (p0 :: ps)).toOption else none

/-- The energy an `ENERGY` line carries: first token exactly `"ENERGY"`,
at least three tokens, third token a float literal. -/
def energyLineVal (l : String) : Option ℚ :=
  match pyTokens l with
  | e0 :: _ :: e2 :: _ => if e0 = "ENERGY" then pyFloat? e2 else none
  | _ => none

/-- The inner loop of the TS scan (`for l in lines[i+1:]` in `parse_grrm`):
stop at a blank line with no energy, stop at an `ENERGY` line parsing
`parts[2]`, append element-headed lines as atoms, skip everything else. -/
def parseTSBlock : List String → List Atom → Except PyErr (List Atom × Option ℚ)
  | [], acc => .ok (acc, none)
  | l :: rest, acc =>
    match pyTokens l with
    | [] => .ok (acc, none)
    | p0 :: ps =>
      if p0 = "ENERGY" then
        match pyFloatAt (p0 :: ps) 2 with
        | .error e => .error e
        | .ok en => .ok (acc, some en)
      else if isElem p0 then
        match parseAtom (p0 :: ps) with
        | .error e => .error e
        | .ok a => parseTSBlock rest (acc ++ [a])
      else parseTSBlock rest acc

/-- The TS part of `parse_grrm`: scan for the first line containing
`"INITIAL STRUCTURE"` and parse the block after it; `([], none)` when the
marker never occurs. -/
def findTS : List String → Except PyErr (List Atom × Option ℚ)
  | [] => .ok ([], none)
  | l :: rest =>
    if strContains "INITIAL STRUCTURE" l then parseTSBlock rest []
    else findTS rest

/-- The atom-collection loop after a `# STEP` line in `collect`:
`while j < len(lines) and "ENERGY" not in lines[j]` appending element-headed
lines, then the line `lines[j]` itself.  Running off the end, or a line whose
tokenization is empty (`tok[0]` on a blank line), is an `IndexError`. -/
def collectAtoms : List String → List Atom → Except PyErr (List Atom × String × List String)
  | [], _ => .error .indexError
  | l :: rest, acc =>
    if strContains "ENERGY" l then .ok (acc, l, rest)
    else
      match pyTokens l with
      | [] => .error .indexError
      | t0 :: ts =>
        if isElem t0 then
          match parseAtom (t0 :: ts) with
          | .error e => .error e
          | .ok a => collectAtoms rest (acc ++ [a])
        else collectAtoms rest acc

theorem collectAtoms_rest_lt :
    ∀ (ls : List String) (acc atoms : List Atom) (el : String) (rest : List String),
      collectAtoms ls acc = .ok (atoms, el, rest) → rest.length < ls.length := by
  intro ls
  induction ls with
  | nil => intro acc atoms el rest h; simp [collectAtoms] at h
  | cons l tl ih =>
    intro acc atoms el rest h
    simp only [collectAtoms] at h
    split at h
    · simp only [Except.ok.injEq, Prod.mk.injEq] at h
      obtain ⟨-, -, rfl⟩ := h
      simp
    · split at h
      · simp at h
      · split at h
        · split at h
          · simp at h
          · exact Nat.lt_succ_of_lt (ih _ _ _ _ h)
        · exact Nat.lt_succ_of_lt (ih _ _ _ _ h)

/-- The outer loop of `collect` after the start marker: stop at a line
containing the end marker, process `# STEP` blocks, advance otherwise. -/
def collectSteps (endM : String) (ls : List String) : Except PyErr (List Step) :=
  match ls with
  | [] => .ok []
  | l :: rest =>
    if strContains endM l then .ok []
    else if pyStartsWith "# STEP" (pyStrip l) then
      match h : collectAtoms rest [] with
      | .error e => .error e
      | .ok (atoms, eline, rest2) =>
        match pyFloatAt (pyTokens eline) 2 with
        | .error e => .error e
        | .ok en =>
          match collectSteps endM rest2 with
          | .error e => .error e
          | .ok steps => .ok ((en, atoms) :: steps)
    else collectSteps endM rest
termination_by ls.length
decreasing_by
  · exact Nat.lt_succ_of_lt (collectAtoms_rest_lt _ _ _ _ _ h)
  · simp

/-- The suffix of `lines` starting at the first line that contains `m`
(empty when `m` never occurs): the first `while` of `collect`. -/
def dropToMarker (m : String) : List String → List String
  | [] => []
  | l :: rest => if strContains m l then l :: rest else dropToMarker m rest

/-- The `collect(start_marker, end_marker)` helper of `parse_grrm`. -/
def collect (lines : List String) (startM endM : String) : Except PyErr (List Step) :=
  collectSteps endM ((dropToMarker startM lines).drop 1)

/-- `parse_grrm`: TS block, then forward steps, then backward steps. -/
def parse_grrm (lines : List String) :
    Except PyErr ((List Atom × Option ℚ) × List Step × List Step) := do
  let ts ← findTS lines
  let fwd ← collect lines "IRC FOLLOWING (FORWARD)" "EQ EXIST WITHIN STEPSIZE"
  let bwd ← collect lines "IRC FOLLOWING (BACKWARD)" "Energy profile along IRC"
  return (ts, fwd, bwd)

/-- One output frame: optional energy (`None` when no TS block was found),
geometry and provenance label. -/
structure Frame where
  energy : Option ℚ
  atoms : List Atom
  label : String
deriving DecidableEq, Repr

/-- A forward step as a frame, label `"FWD"`. -/
def mkFwdFrame (s : Step) : Frame := ⟨some s.1, s.2, "FWD"⟩

/-- A backward step as a frame, label `"BWD"`. -/
def mkBwdFrame (s : Step) : Frame := ⟨some s.1, s.2, "BWD"⟩

/-- The frame assembly of `main`: forward = TS then forward steps in order,
backward = TS then backward steps in reversed order. -/
def buildFrames (tsE : Option ℚ) (tsAtoms : List Atom) (fwd bwd : List Step) :
    List Frame × List Frame :=
  (⟨tsE, tsAtoms, "TS"⟩ :: fwd.map mkFwdFrame,
   ⟨tsE, tsAtoms, "TS"⟩ :: bwd.reverse.map mkBwdFrame)

/-- The atom line `f"{el} {x:.6f} {y:.6f} {z:.6f}"`. -/
def atomLineChars (a : Atom) : List Char :=
  a.el.data ++ ' ' :: (formatChars6 a.x ++ ' ' :: (formatChars6 a.y ++ ' ' :: formatChars6 a.z))

/-- The comment line `f"Energy={energy:.6f} Label={label}"`. -/
def commentChars (en : ℚ) (label : String) : List Char :=
  "Energy=".data ++ formatChars6 en ++ " Label=".data ++ label.data

/-- The lines one frame with a present energy contributes to the file. -/
def frameLinesOk (en : ℚ) (fr : Frame) : List String :=
  String.mk (natToDigits fr.atoms.length)
    :: String.mk (commentChars en fr.label)
    :: fr.atoms.map (fun a => String.mk (atomLineChars a))

/-- `write_xyz`: the lines written, together with the error aborting the
write, if any.  A frame whose energy is `none` still writes its count line,
then `f"{None:.6f}"` raises a `TypeError`. -/
def write_xyz : List Frame → List String × Option PyErr
  | [] => ([], none)
  | fr :: rest =>
    match fr.energy with
    | none => ([String.mk (natToDigits fr.atoms.length)], some .typeError)
    | some en =>
      let tl := write_xyz rest
      (frameLinesOk en fr ++ tl.1, tl.2)

/-- One frame as read back from the output text: the count-line value, the
label after `" Label="`, and the atoms read from the atom lines. -/
structure RFrame where
  natoms : Nat
  label : List Char
  atoms : List Atom
deriving DecidableEq, Repr

/-- The remainder of `cs` after the first occurrence of `m`. -/
def afterMarker (m : List Char) : List Char → Option (List Char)
  | [] => none
  | c :: cs =>
    if hasPrefixChars m (c :: cs) then some ((c :: cs).drop m.length)
    else afterMarker m cs

/-- Read one atom line of the output format: element and three floats. -/
def readAtomLine (l : String) : Option Atom :=
  match pyTokens l with
  | [el, t1, t2, t3] =>
    match pyFloat? t1, pyFloat? t2, pyFloat? t3 with
    | some x, some y, some z => some ⟨el, x, y, z⟩
    | _, _, _ => none
  | _ => none

/-- Read a list of atom lines. -/
def readAtoms : List String → Option (List Atom)
  | [] => some []
  | l :: rest =>
    match readAtomLine l, readAtoms rest with
    | some a, some as => some (a :: as)
    | _, _ => none

/-- Modelled from the spec: the output trajectory format of §6 (no reader
exists in the source; the round-trip property re-reads the produced text per
that format).  Each frame is a decimal count line, a comment line whose label
is everything after the first `" Label="`, then count-many atom lines. -/
def readFrames (ls : List String) : Option (List RFrame) :=
  match ls with
  | [] => some []
  | cnt :: comment :: rest =>
    if !cnt.data.isEmpty && cnt.data.all Char.isDigit then
      let n := natOfDigits cnt.data
      match afterMarker (' ' :: "Label=".data) comment.data with
      | none => none
      | some lab =>
        if n ≤ rest.length then
          match readAtoms (rest.take n), readFrames (rest.drop n) with
          | some as, some more => some (⟨n, lab, as⟩ :: more)
          | _, _ => none
        else none
    else none
  | _ => none
termination_by ls.length
decreasing_by simp [List.length_drop]; omega

theorem dropToMarker_eq_nil {m : String} {lines : List String}
    (h : ∀ l ∈ lines, strContains m l = false) : dropToMarker m lines = [] := by
  induction lines with
  | nil => rfl
  | cons l tl ih =>
    have hl := h l (by simp)
    simp only [dropToMarker, hl, Bool.false_eq_true, if_false]
    exact ih (fun x hx => h x (by simp [hx]))

theorem collect_nil_of_no_marker {lines : List String} {startM endM : String}
    (h : ∀ l ∈ lines, strContains startM l = false) :
    collect lines startM endM = .ok [] := by
  unfold collect
  rw [dropToMarker_eq_nil h]
  simp [collectSteps]

theorem findTS_nil_of_no_marker {lines : List String}
    (h : ∀ l ∈ lines, strContains "INITIAL STRUCTURE" l = false) :
    findTS lines = .ok ([], none) := by
  induction lines with
  | nil => rfl
  | cons l tl ih =>
    have hl := h l (by simp)
    simp only [findTS, hl, Bool.false_eq_true, if_false]
    exact ih (fun x hx => h x (by simp [hx]))

/-- C6: for every input log in which the start sentinel substring occurs in no
line, `collect` returns the empty step list and raises no error. -/
theorem C6_absent_start_marker (lines : List String) (startM endM : String)
    (h : ∀ l ∈ lines, strContains startM l = false) :
    collect lines startM endM = .ok [] :=
  collect_nil_of_no_marker h

theorem C6_witness :
    collect ["IRC RESULTS", "# STEP 1", "H 0.0 0.0 0.0", "ENERGY = -1.0"]
      "IRC FOLLOWING (FORWARD)" "EQ EXIST WITHIN STEPSIZE" = .ok [] :=
  C6_absent_start_marker _ _ _ (by decide)

/-- C2: the forward trajectory is the TS frame labeled `"TS"` followed by the
forward steps labeled `"FWD"` in encounter order; the backward trajectory is
the same TS frame followed by the backward steps labeled `"BWD"` in exactly
reversed encounter order; both trajectories begin with an identical TS
frame. -/
theorem C2_frame_order (tsE : Option ℚ) (tsAtoms : List Atom) (fwd bwd : List Step) :
    (buildFrames tsE tsAtoms fwd bwd).1.head? = some ⟨tsE, tsAtoms, "TS"⟩ ∧
    (buildFrames tsE tsAtoms fwd bwd).2.head? = (buildFrames tsE tsAtoms fwd bwd).1.head? ∧
    (buildFrames tsE tsAtoms fwd bwd).1.length = fwd.length + 1 ∧
    (buildFrames tsE tsAtoms fwd bwd).2.length = bwd.length + 1 ∧
    (∀ i, i < fwd.length →
      (buildFrames tsE tsAtoms fwd bwd).1[i + 1]? = (fwd[i]?).map mkFwdFrame) ∧
    (∀ i, i < bwd.length →
      (buildFrames tsE tsAtoms fwd bwd).2[i + 1]? =
        (bwd[bwd.length - 1 - i]?).map mkBwdFrame) := by
  refine ⟨rfl, rfl, by simp [buildFrames], by simp [buildFrames], ?_, ?_⟩
  · intro i hi
    simp [buildFrames]
  · intro i hi
    have hb : bwd.length - 1 - i < bwd.length := by omega
    simp [buildFrames, List.getElem?_reverse, hi, List.getElem?_eq_getElem hb]

theorem C2_witness :
    (buildFrames (some 1) [] [((2 : ℚ), [])] [((3 : ℚ), []), ((4 : ℚ), [])]).2[1]? =
      some (mkBwdFrame ((4 : ℚ), [])) := by
  have h :=
    (C2_frame_order (some 1) [] [((2 : ℚ), [])] [((3 : ℚ), []), ((4 : ℚ), [])]).2.2.2.2.2
      0 (by decide)
  simpa using h

/-- C3 counterexample: on a log without `"INITIAL STRUCTURE"`, `parse_grrm`
does return empty TS atoms and a `none` energy, but trajectory writing does
not proceed without error: formatting the absent energy raises a
`TypeError` right after the count line, refuting the claim that no error is
raised anywhere in the run. -/
theorem C3_counterexample :
    parse_grrm ["no ts marker here"] = .ok (([], none), [], []) ∧
    (write_xyz (buildFrames none [] [] []).1).2 ≠ none := by
  constructor
  · unfold parse_grrm
    rw [findTS_nil_of_no_marker (by decide),
      collect_nil_of_no_marker (by decide),
      collect_nil_of_no_marker (by decide)]
    rfl
  · decide

/-- C3 amended: if `"INITIAL STRUCTURE"` never occurs, the TS scan yields an
empty atom list and an absent energy, and frame building proceeds; but
writing either resulting trajectory emits only the TS count line `"0"` and
then fails with a `TypeError` when formatting the absent energy. -/
theorem C3_amended (lines : List String)
    (h : ∀ l ∈ lines, strContains "INITIAL STRUCTURE" l = false) :
    findTS lines = .ok ([], none) ∧
    ∀ fwd bwd : List Step,
      write_xyz (buildFrames none [] fwd bwd).1 = (["0"], some PyErr.typeError) ∧
      write_xyz (buildFrames none [] fwd bwd).2 = (["0"], some PyErr.typeError) := by
  refine ⟨findTS_nil_of_no_marker h, ?_⟩
  intro fwd bwd
  constructor <;> rfl

theorem C3_amended_witness :
    findTS ["x", "y"] = .ok ([], none) ∧
    write_xyz (buildFrames none [] [((1 : ℚ), [])] []).1 = (["0"], some PyErr.typeError) := by
  have h := C3_amended ["x", "y"] (by decide)
  exact ⟨h.1, (h.2 [((1 : ℚ), [])] []).1⟩

theorem write_xyz_eq_flat {frames : List Frame} (hE : ∀ fr ∈ frames, fr.energy ≠ none) :
    write_xyz frames =
      (frames.flatMap (fun fr => frameLinesOk (fr.energy.getD 0) fr), none) := by
  induction frames with
  | nil => rfl
  | cons fr rest ih =>
    obtain ⟨en, hen⟩ : ∃ en, fr.energy = some en :=
      Option.ne_none_iff_exists'.mp (hE fr (by simp))
    simp only [write_xyz, hen]
    rw [ih (fun x hx => hE x (by simp [hx]))]
    simp [hen]

/-- C4 counterexample: a frame with one atom is written as three lines
(count, comment, one atom line), not as three-plus-one lines as the claim
states. -/
theorem C4_counterexample :
    (write_xyz [⟨some 1, [⟨"H", 0, 0, 0⟩], "TS"⟩]).2 = none ∧
    (write_xyz [⟨some 1, [⟨"H", 0, 0, 0⟩], "TS"⟩]).1.length ≠ 3 + 1 := by
  constructor
  · rfl
  · decide

/-- C4 (amended): for every frame sequence whose energies are all present,
writing raises no error and the file is the frames' line blocks concatenated
with no separator; each block is one count line, one comment line
`Energy=<6 decimals> Label=<label>`, then one 6-decimal line per atom — so a
frame occupies exactly two-plus-N lines (N its atom count) — and an empty
frame sequence yields an empty file with no error. -/
theorem C4_frame_lines (frames : List Frame) (hE : ∀ fr ∈ frames, fr.energy ≠ none) :
    (write_xyz frames).2 = none ∧
    (write_xyz frames).1 =
      frames.flatMap (fun fr => frameLinesOk (fr.energy.getD 0) fr) ∧
    (∀ en : ℚ, ∀ fr : Frame,
      frameLinesOk en fr =
        String.mk (natToDigits fr.atoms.length) ::
          String.mk (commentChars en fr.label) ::
            fr.atoms.map (fun a => String.mk (atomLineChars a)) ∧
      (frameLinesOk en fr).length = 2 + fr.atoms.length) ∧
    write_xyz [] = ([], none) := by
  refine ⟨?_, ?_, ?_, rfl⟩
  · rw [write_xyz_eq_flat hE]
  · rw [write_xyz_eq_flat hE]
  · intro en fr
    refine ⟨rfl, ?_⟩
    simp [frameLinesOk]
    omega

theorem C4_witness :
    (write_xyz [⟨some ((3 : ℚ) / 2), [⟨"H", 0, 0, 0⟩, ⟨"O", 1, 2, 3⟩], "FWD"⟩]).2 = none ∧
    (write_xyz [⟨some ((3 : ℚ) / 2), [⟨"H", 0, 0, 0⟩, ⟨"O", 1, 2, 3⟩], "FWD"⟩]).1.length = 4 := by
  have h := C4_frame_lines [⟨some ((3 : ℚ) / 2), [⟨"H", 0, 0, 0⟩, ⟨"O", 1, 2, 3⟩], "FWD"⟩]
    (by decide)
  refine ⟨h.1, ?_⟩
  rw [h.2.1]
  simp [(h.2.2.1 ((3 : ℚ) / 2) ⟨some ((3 : ℚ) / 2), [⟨"H", 0, 0, 0⟩, ⟨"O", 1, 2, 3⟩], "FWD"⟩).2]

/-- A line the step-block atom loop can process without raising: its
tokenization is nonempty, and if it is element-headed its coordinates parse. -/
def stepLineOk (l : String) : Bool :=
  match pyTokens l with
  | [] => false
  | t0 :: ts => !isElem t0 || (parseAtom (t0 :: ts)).toOption.isSome

/-- The atoms a step block collects from its body lines. -/
def stepAtoms (body : List String) : List Atom := body.filterMap atomOfLine

theorem collectSteps_nil (endM : String) : collectSteps endM [] = .ok [] := by
  rw [collectSteps]

theorem collectSteps_cons_end {endM l : String} {rest : List String}
    (h : strContains endM l = true) :
    collectSteps endM (l :: rest) = .ok [] := by
  rw [collectSteps]
  simp [h]

theorem collectSteps_cons_skip {endM l : String} {rest : List String}
    (h1 : strContains endM l = false) (h2 : pyStartsWith "# STEP" (pyStrip l) = false) :
    collectSteps endM (l :: rest) = collectSteps endM rest := by
  rw [collectSteps]
  simp [h1, h2]

theorem collectSteps_cons_step {endM l : String} {rest : List String}
    {atoms : List Atom} {eline : String} {rest2 : List String} {en : ℚ}
    (h1 : strContains endM l = false) (h2 : pyStartsWith "# STEP" (pyStrip l) = true)
    (h3 : collectAtoms rest [] = .ok (atoms, eline, rest2))
    (h4 : pyFloatAt (pyTokens eline) 2 = .ok en) :
    collectSteps endM (l :: rest) =
      (collectSteps endM rest2).map (fun steps => (en, atoms) :: steps) := by
  rw [collectSteps]
  simp only [h1, Bool.false_eq_true, if_false, h2, if_true]
  split
  · simp_all
  · rename_i a el r heq
    rw [h3] at heq
    injection heq with heq
    simp only [Prod.mk.injEq] at heq
    obtain ⟨rfl, rfl, rfl⟩ := heq
    rw [h4]
    cases h5 : collectSteps endM rest2 <;> simp [h5, Except.map]

theorem collectSteps_cons_step_err {endM l : String} {rest : List String}
    {e : PyErr}
    (h1 : strContains endM l = false) (h2 : pyStartsWith "# STEP" (pyStrip l) = true)
    (h3 : collectAtoms rest [] = .error e) :
    collectSteps endM (l :: rest) = .error e := by
  rw [collectSteps]
  simp only [h1, Bool.false_eq_true, if_false, h2, if_true]
  split
  · simp_all
  · simp_all

theorem collectSteps_cons_step_energy_err {endM l : String} {rest : List String}
    {atoms : List Atom} {eline : String} {rest2 : List String} {e : PyErr}
    (h1 : strContains endM l = false) (h2 : pyStartsWith "# STEP" (pyStrip l) = true)
    (h3 : collectAtoms rest [] = .ok (atoms, eline, rest2))
    (h4 : pyFloatAt (pyTokens eline) 2 = .error e) :
    collectSteps endM (l :: rest) = .error e := by
  rw [collectSteps]
  simp only [h1, Bool.false_eq_true, if_false, h2, if_true]
  split
  · simp_all
  · simp_all

/-- Demonstration log for C8: a one-atom TS block and a two-atom forward
step. -/
def demoC8 : List String :=
  ["INITIAL STRUCTURE",
   "H 0.0 0.0 0.0",
   "ENERGY =  -1.0",
   "IRC FOLLOWING (FORWARD)",
   "# STEP 1",
   "H 0.0 0.0 0.0",
   "O 0.0 0.0 1.0",
   "ENERGY =  -2.0",
   "EQ EXIST WITHIN STEPSIZE"]

/-- The TS geometry of `demoC8`. -/
def demoC8ts : List Atom := [⟨"H", 0, 0, 0⟩]

/-- The forward-step geometry of `demoC8`. -/
def demoC8step : List Atom := [⟨"H", 0, 0, 0⟩, ⟨"O", 0, 0, 1⟩]

theorem demoC8_fwd :
    collect demoC8 "IRC FOLLOWING (FORWARD)" "EQ EXIST WITHIN STEPSIZE" =
      .ok [((-2 : ℚ), demoC8step)] := by
  have hdrop :
      (dropToMarker "IRC FOLLOWING (FORWARD)" demoC8).drop 1 =
        ["# STEP 1", "H 0.0 0.0 0.0", "O 0.0 0.0 1.0", "ENERGY =  -2.0",
         "EQ EXIST WITHIN STEPSIZE"] := by decide
  unfold collect
  rw [hdrop]
  rw [collectSteps_cons_step (by decide) (by decide)
    (show collectAtoms ["H 0.0 0.0 0.0", "O 0.0 0.0 1.0", "ENERGY =  -2.0",
        "EQ EXIST WITHIN STEPSIZE"] [] =
      .ok (demoC8step, "ENERGY =  -2.0", ["EQ EXIST WITHIN STEPSIZE"]) from by decide)
    (show pyFloatAt (pyTokens "ENERGY =  -2.0") 2 = .ok (-2) from by decide)]
  rw [collectSteps_cons_end (by decide)]
  rfl

theorem demoC8_parse :
    parse_grrm demoC8 = .ok ((demoC8ts, some (-1)), [((-2 : ℚ), demoC8step)], []) := by
  unfold parse_grrm
  simp only [show findTS demoC8 = .ok (demoC8ts, some (-1)) from by decide, demoC8_fwd,
    @collect_nil_of_no_marker demoC8 "IRC FOLLOWING (BACKWARD)" "Energy profile along IRC"
      (by decide)]
  rfl

/-- C8 counterexample: a log whose TS block has one atom and whose single
forward step has two atoms parses without error, and the forward output
trajectory then contains geometries of different atom counts, refuting the
claimed same-count invariant. -/
theorem C8_counterexample :
    parse_grrm demoC8 = .ok ((demoC8ts, some (-1)), [((-2 : ℚ), demoC8step)], []) ∧
    ¬ (∀ f1 ∈ (buildFrames (some (-1)) demoC8ts [((-2 : ℚ), demoC8step)] []).1,
        ∀ f2 ∈ (buildFrames (some (-1)) demoC8ts [((-2 : ℚ), demoC8step)] []).1,
          f1.atoms.length = f2.atoms.length) :=
  ⟨demoC8_parse, by decide⟩

/-- C8 (amended): every geometry in an output trajectory is one of the parsed
blocks' geometries taken verbatim — the forward trajectory's geometries are
the TS geometry followed by the forward steps' geometries in encounter order,
the backward trajectory's the TS geometry followed by the backward steps'
geometries reversed, never reordered within a geometry — and all geometries
in one trajectory have the same atom count precisely when every step of the
corresponding block matches the TS atom count, which the code does not
enforce. -/
theorem C8_geometries (lines : List String) (tsA : List Atom) (tsE : Option ℚ)
    (fwd bwd : List Step)
    (h : parse_grrm lines = .ok ((tsA, tsE), fwd, bwd)) :
    ((buildFrames tsE tsA fwd bwd).1.map Frame.atoms = tsA :: fwd.map Prod.snd) ∧
    ((buildFrames tsE tsA fwd bwd).2.map Frame.atoms =
      tsA :: (bwd.map Prod.snd).reverse) ∧
    ((∀ s ∈ fwd, s.2.length = tsA.length) →
      ∀ fr ∈ (buildFrames tsE tsA fwd bwd).1, fr.atoms.length = tsA.length) ∧
    ((∀ s ∈ bwd, s.2.length = tsA.length) →
      ∀ fr ∈ (buildFrames tsE tsA fwd bwd).2, fr.atoms.length = tsA.length) := by
  refine ⟨?_, ?_, ?_, ?_⟩
  · simp [buildFrames, mkFwdFrame]
  · simp [buildFrames, mkBwdFrame, List.map_reverse]
  · intro hs fr hfr
    simp only [buildFrames, List.mem_cons, List.mem_map] at hfr
    rcases hfr with rfl | ⟨s, hsmem, rfl⟩
    · rfl
    · exact hs s hsmem
  · intro hs fr hfr
    simp only [buildFrames, List.mem_cons, List.mem_map] at hfr
    rcases hfr with rfl | ⟨s, hsmem, rfl⟩
    · rfl
    · exact hs s (List.mem_reverse.mp hsmem)

theorem C8_witness :
    (buildFrames (some (-1)) demoC8ts [((-2 : ℚ), demoC8step)] []).1.map Frame.atoms =
      demoC8ts :: [demoC8step] := by
  have h :=
    C8_geometries demoC8 demoC8ts (some (-1)) [((-2 : ℚ), demoC8step)] [] demoC8_parse
  simpa using h.1

theorem except_toOption_eq_some {ε α : Type} {e : Except ε α} {a : α}
    (h : e.toOption = some a) : e = .ok a := by
  cases e with
  | error _ => simp [Except.toOption] at h
  | ok b => simpa [Except.toOption] using h

theorem isElem_ne_energy {p0 : String} (h : isElem p0 = true) : ¬ p0 = "ENERGY" := by
  intro hc
  rw [hc] at h
  exact absurd h (by decide)

theorem parseTSBlock_run :
    ∀ (atomLines : List String) (acc atoms : List Atom),
      atomLines.mapM atomOfLine = some atoms →
      ∀ (eline : String) (en : ℚ) (post : List String),
        energyLineVal eline = some en →
        parseTSBlock (atomLines ++ eline :: post) acc = .ok (acc ++ atoms, some en) ∧
        atoms.length = atomLines.length := by
  intro atomLines
  induction atomLines with
  | nil =>
    intro acc atoms h eline en post he
    simp only [List.mapM_nil, pure, Option.some.injEq] at h
    subst h
    refine ⟨?_, rfl⟩
    unfold energyLineVal at he
    split at he
    · rename_i e0 e1 e2 es heq
      split at he
      · rename_i hE0
        subst hE0
        simp only [List.nil_append, parseTSBlock]
        rw [heq]
        simp only [if_pos rfl, pyFloatAt]
        simp [he]
      · simp at he
    · simp at he
  | cons l tl ih =>
    intro acc atoms h eline en post he
    rw [List.mapM_cons] at h
    rcases hph : atomOfLine l with _ | a
    · rw [hph] at h; simp at h
    · rw [hph] at h
      rcases hrest : tl.mapM atomOfLine with _ | as
      · rw [hrest] at h; simp at h
      · rw [hrest] at h
        simp only [Option.bind_eq_bind, Option.some_bind, Option.pure_def,
          Option.some.injEq] at h
        subst h
        unfold atomOfLine at hph
        split at hph
        · simp at hph
        · rename_i p0 ps heq
          split at hph
          · rename_i hel
            have hpa : parseAtom (p0 :: ps) = .ok a := except_toOption_eq_some hph
            have hne : ¬ p0 = "ENERGY" := isElem_ne_energy hel
            simp only [List.cons_append, parseTSBlock]
            rw [heq]
            simp only [hne, if_false, hel, if_true, hpa]
            have hih := ih (acc ++ [a]) as hrest eline en post he
            refine ⟨?_, by simpa using hih.2⟩
            rw [show tl.append (eline :: post) = tl ++ eline :: post from rfl, hih.1]
            simp
          · simp at hph

theorem findTS_skip {pre : List String} (rest : List String)
    (h : ∀ l ∈ pre, strContains "INITIAL STRUCTURE" l = false) :
    findTS (pre ++ rest) = findTS rest := by
  induction pre with
  | nil => rfl
  | cons l tl ih =>
    have hl := h l (by simp)
    simp only [List.cons_append, findTS, hl, Bool.false_eq_true, if_false]
    exact ih (fun x hx => h x (by simp [hx]))

/-- C1: a log whose first `"INITIAL STRUCTURE"` line is followed by K
element-headed atom lines and then an `ENERGY` line with a parseable third
token parses to exactly those K atoms in encounter order with the TS energy
taken from that third token; scanning of the block stops at the `ENERGY`
line and everything after it — including further `"INITIAL STRUCTURE"`
blocks — is ignored. -/
theorem C1_ts_block (pre : List String) (mline : String) (atomLines : List String)
    (eline : String) (post : List String) (atoms : List Atom) (en : ℚ)
    (hpre : ∀ l ∈ pre, strContains "INITIAL STRUCTURE" l = false)
    (hm : strContains "INITIAL STRUCTURE" mline = true)
    (hatoms : atomLines.mapM atomOfLine = some atoms)
    (he : energyLineVal eline = some en) :
    findTS (pre ++ mline :: (atomLines ++ eline :: post)) = .ok (atoms, some en) ∧
    atoms.length = atomLines.length := by
  rw [findTS_skip (mline :: (atomLines ++ eline :: post)) hpre]
  simp only [findTS, hm, if_true]
  have h := parseTSBlock_run atomLines [] atoms hatoms eline en post he
  simpa using h

theorem C1_witness :
    findTS ["header", "=== INITIAL STRUCTURE ===", "H 0.0 0.0 0.0", "O 0.0 0.0 1.0",
        "ENERGY =  -1.5  (au)", "INITIAL STRUCTURE", "junk"] =
      .ok ([⟨"H", 0, 0, 0⟩, ⟨"O", 0, 0, 1⟩], some (-(3 : ℚ)/2)) ∧
    ([⟨"H", (0 : ℚ), 0, 0⟩, ⟨"O", 0, 0, (1 : ℚ)⟩] : List Atom).length = 2 := by
  have h := C1_ts_block ["header"] "=== INITIAL STRUCTURE ==="
    ["H 0.0 0.0 0.0", "O 0.0 0.0 1.0"] "ENERGY =  -1.5  (au)" ["INITIAL STRUCTURE", "junk"]
    [⟨"H", 0, 0, 0⟩, ⟨"O", 0, 0, 1⟩] (-(3 : ℚ)/2)
    (by decide) (by decide) (by decide) (by decide)
  exact ⟨h.1, h.2⟩

theorem collectAtoms_run :
    ∀ (body : List String) (acc : List Atom),
      (∀ l ∈ body, strContains "ENERGY" l = false ∧ stepLineOk l = true) →
      ∀ (eline : String) (post : List String),
        strContains "ENERGY" eline = true →
        collectAtoms (body ++ eline :: post) acc =
          .ok (acc ++ stepAtoms body, eline, post) := by
  intro body
  induction body with
  | nil =>
    intro acc h eline post he
    simp [collectAtoms, he, stepAtoms]
  | cons l tl ih =>
    intro acc h eline post he
    have hl := h l (by simp)
    simp only [List.cons_append, collectAtoms, hl.1, Bool.false_eq_true, if_false]
    have hok := hl.2
    unfold stepLineOk at hok
    split at hok
    · simp at hok
    · rename_i t0 ts heq
      by_cases hel : isElem t0 = true
      · simp only [hel, if_true]
        rw [hel] at hok
        simp only [Bool.not_true, Bool.false_or] at hok
        obtain ⟨a, ha⟩ := Option.isSome_iff_exists.mp hok
        rw [except_toOption_eq_some ha]
        show collectAtoms (tl ++ eline :: post) (acc ++ [a]) =
          Except.ok (acc ++ stepAtoms (l :: tl), eline, post)
        rw [ih (acc ++ [a]) (fun x hx => h x (by simp [hx])) eline post he]
        have hsa : stepAtoms (l :: tl) = a :: stepAtoms tl := by
          simp [stepAtoms, atomOfLine, heq, hel, ha]
        rw [hsa]
        simp
      · simp only [Bool.not_eq_true] at hel
        simp only [hel, Bool.false_eq_true, if_false]
        show collectAtoms (tl ++ eline :: post) acc =
          Except.ok (acc ++ stepAtoms (l :: tl), eline, post)
        rw [ih acc (fun x hx => h x (by simp [hx])) eline post he]
        have hsa : stepAtoms (l :: tl) = stepAtoms tl := by
          simp [stepAtoms, atomOfLine, heq, hel]
        rw [hsa]

theorem collectAtoms_no_energy :
    ∀ (body : List String) (acc : List Atom),
      (∀ l ∈ body, strContains "ENERGY" l = false ∧ stepLineOk l = true) →
      collectAtoms body acc = .error PyErr.indexError := by
  intro body
  induction body with
  | nil => intro acc _; rfl
  | cons l tl ih =>
    intro acc h
    have hl := h l (by simp)
    simp only [collectAtoms, hl.1, Bool.false_eq_true, if_false]
    have hok := hl.2
    unfold stepLineOk at hok
    split at hok
    · simp at hok
    · rename_i t0 ts heq
      by_cases hel : isElem t0 = true
      · simp only [hel, if_true]
        rw [hel] at hok
        simp only [Bool.not_true, Bool.false_or] at hok
        obtain ⟨a, ha⟩ := Option.isSome_iff_exists.mp hok
        rw [except_toOption_eq_some ha]
        exact ih (acc ++ [a]) (fun x hx => h x (by simp [hx]))
      · simp only [Bool.not_eq_true] at hel
        simp only [hel, Bool.false_eq_true, if_false]
        exact ih acc (fun x hx => h x (by simp [hx]))

theorem dropToMarker_append {m : String} {pre : List String} (rest : List String)
    (h : ∀ l ∈ pre, strContains m l = false) :
    dropToMarker m (pre ++ rest) = dropToMarker m rest := by
  induction pre with
  | nil => rfl
  | cons l tl ih =>
    have hl := h l (by simp)
    simp only [List.cons_append, dropToMarker, hl, Bool.false_eq_true, if_false]
    exact ih (fun x hx => h x (by simp [hx]))

theorem collect_start (startM endM sline : String) (pre rest : List String)
    (hpre : ∀ l ∈ pre, strContains startM l = false)
    (hs : strContains startM sline = true) :
    collect (pre ++ sline :: rest) startM endM = collectSteps endM rest := by
  unfold collect
  rw [dropToMarker_append (sline :: rest) hpre]
  simp [dropToMarker, hs]

theorem collectSteps_skip_all {endM : String} {mid : List String} (rest : List String)
    (h : ∀ l ∈ mid, strContains endM l = false ∧ pyStartsWith "# STEP" (pyStrip l) = false) :
    collectSteps endM (mid ++ rest) = collectSteps endM rest := by
  induction mid with
  | nil => rfl
  | cons l tl ih =>
    have hl := h l (by simp)
    rw [List.cons_append, collectSteps_cons_skip hl.1 hl.2]
    exact ih (fun x hx => h x (by simp [hx]))

/-- C5: inside a found step block, when the first line containing `"ENERGY"`
after a `# STEP` line has fewer than three whitespace tokens, parsing fails
with an uncaught `IndexError` — the step is not silently skipped and no
result is returned. -/
theorem C5_short_energy_line (startM endM : String) (pre : List String) (sline : String)
    (mid : List String) (stepLine : String) (body : List String) (eline : String)
    (post : List String)
    (hpre : ∀ l ∈ pre, strContains startM l = false)
    (hs : strContains startM sline = true)
    (hmid : ∀ l ∈ mid, strContains endM l = false ∧ pyStartsWith "# STEP" (pyStrip l) = false)
    (hstep1 : strContains endM stepLine = false)
    (hstep2 : pyStartsWith "# STEP" (pyStrip stepLine) = true)
    (hbody : ∀ l ∈ body, strContains "ENERGY" l = false ∧ stepLineOk l = true)
    (he : strContains "ENERGY" eline = true)
    (hshort : (pyTokens eline).length < 3) :
    collect (pre ++ sline :: (mid ++ stepLine :: (body ++ eline :: post))) startM endM =
      .error PyErr.indexError := by
  rw [collect_start startM endM sline pre _ hpre hs, collectSteps_skip_all _ hmid]
  have h3 := collectAtoms_run body [] hbody eline post he
  have h4 : pyFloatAt (pyTokens eline) 2 = .error PyErr.indexError := by
    unfold pyFloatAt
    rw [List.get?_eq_none.mpr (by omega)]
  exact collectSteps_cons_step_energy_err hstep1 hstep2 h3 h4

theorem C5_witness :
    collect ["IRC FOLLOWING (FORWARD)", "path info", "  # STEP 1", "H 0.0 0.0 0.0",
        "ENERGY", "tail"] "IRC FOLLOWING (FORWARD)" "EQ EXIST WITHIN STEPSIZE" =
      .error PyErr.indexError :=
  C5_short_energy_line "IRC FOLLOWING (FORWARD)" "EQ EXIST WITHIN STEPSIZE" []
    "IRC FOLLOWING (FORWARD)" ["path info"] "  # STEP 1" ["H 0.0 0.0 0.0"] "ENERGY"
    ["tail"] (by decide) (by decide) (by decide) (by decide) (by decide) (by decide)
    (by decide) (by decide)

/-- C10: when a `# STEP` line inside a found step block is never followed by
a line containing `"ENERGY"`, the scan runs off the end of the input and
indexes one past the last line: `collect` fails with an uncaught
`IndexError` instead of returning a result. -/
theorem C10_unterminated_step (startM endM : String) (pre : List String) (sline : String)
    (mid : List String) (stepLine : String) (body : List String)
    (hpre : ∀ l ∈ pre, strContains startM l = false)
    (hs : strContains startM sline = true)
    (hmid : ∀ l ∈ mid, strContains endM l = false ∧ pyStartsWith "# STEP" (pyStrip l) = false)
    (hstep1 : strContains endM stepLine = false)
    (hstep2 : pyStartsWith "# STEP" (pyStrip stepLine) = true)
    (hbody : ∀ l ∈ body, strContains "ENERGY" l = false ∧ stepLineOk l = true) :
    collect (pre ++ sline :: (mid ++ stepLine :: body)) startM endM =
      .error PyErr.indexError := by
  rw [collect_start startM endM sline pre _ hpre hs, collectSteps_skip_all _ hmid]
  exact collectSteps_cons_step_err hstep1 hstep2 (collectAtoms_no_energy body [] hbody)

theorem C10_witness :
    collect ["IRC FOLLOWING (FORWARD)", "# STEP 1", "H 0.0 0.0 0.0"]
      "IRC FOLLOWING (FORWARD)" "EQ EXIST WITHIN STEPSIZE" = .error PyErr.indexError :=
  C10_unterminated_step "IRC FOLLOWING (FORWARD)" "EQ EXIST WITHIN STEPSIZE" []
    "IRC FOLLOWING (FORWARD)" [] "# STEP 1" ["H 0.0 0.0 0.0"] (by decide) (by decide)
    (by decide) (by decide) (by decide) (by decide)

/-- C7 counterexample: a blank line inside step-block atom collection is not
skipped without error: the code tokenizes it to an empty list and `tok[0]`
raises an `IndexError`, so `collect` fails instead of completing the step at
the `ENERGY` line. -/
theorem C7_counterexample :
    collect ["IRC FOLLOWING (FORWARD)", "# STEP 1", "", "ENERGY =  -1.0",
        "EQ EXIST WITHIN STEPSIZE"] "IRC FOLLOWING (FORWARD)" "EQ EXIST WITHIN STEPSIZE" =
      .error PyErr.indexError := by
  have h : collect ([] ++ "IRC FOLLOWING (FORWARD)" ::
        ["# STEP 1", "", "ENERGY =  -1.0", "EQ EXIST WITHIN STEPSIZE"])
      "IRC FOLLOWING (FORWARD)" "EQ EXIST WITHIN STEPSIZE" = .error PyErr.indexError := by
    rw [collect_start "IRC FOLLOWING (FORWARD)" "EQ EXIST WITHIN STEPSIZE"
      "IRC FOLLOWING (FORWARD)" [] ["# STEP 1", "", "ENERGY =  -1.0",
        "EQ EXIST WITHIN STEPSIZE"] (by decide) (by decide)]
    exact collectSteps_cons_step_err (by decide) (by decide)
      (show collectAtoms ["", "ENERGY =  -1.0", "EQ EXIST WITHIN STEPSIZE"] [] =
        .error PyErr.indexError from by decide)
  exact h

/-- C7 (amended): during step-block atom collection, every line whose
tokenization is nonempty and whose first token is not an element symbol is
skipped without effect and without error, and collection terminates exactly
at the first line containing `"ENERGY"`; a blank or whitespace-only line,
however, is not skipped — its empty tokenization makes `tok[0]` raise an
`IndexError`. -/
theorem C7_skip_and_blank (body : List String) (eline : String) (post : List String)
    (acc : List Atom)
    (hbody : ∀ l ∈ body, strContains "ENERGY" l = false ∧ pyTokens l ≠ [] ∧
      (pyTokens l).head?.all (fun t => !isElem t) = true)
    (he : strContains "ENERGY" eline = true) :
    collectAtoms (body ++ eline :: post) acc = .ok (acc, eline, post) ∧
    ∀ l : String, ∀ rest : List String, pyTokens l = [] →
      strContains "ENERGY" l = false →
      collectAtoms (l :: rest) acc = .error PyErr.indexError := by
  constructor
  · have hb : ∀ l ∈ body, strContains "ENERGY" l = false ∧ stepLineOk l = true := by
      intro l hl
      obtain ⟨h1, h2, h3⟩ := hbody l hl
      refine ⟨h1, ?_⟩
      unfold stepLineOk
      rcases hq : pyTokens l with _ | ⟨t0, ts⟩
      · exact absurd hq h2
      · rw [hq] at h3
        simp only [List.head?_cons, Option.all_some] at h3
        simp [h3]
    rw [collectAtoms_run body acc hb eline post he]
    have hsa : stepAtoms body = [] := by
      rw [stepAtoms, List.filterMap_eq_nil]
      intro l hl
      obtain ⟨h1, h2, h3⟩ := hbody l hl
      unfold atomOfLine
      rcases hq : pyTokens l with _ | ⟨t0, ts⟩
      · rfl
      · rw [hq] at h3
        simp only [List.head?_cons, Option.all_some] at h3
        have h4 : isElem t0 = false := by simpa using h3
        simp [h4]
    rw [hsa]
    simp
  · intro l rest h1 h2
    simp only [collectAtoms, h2, Bool.false_eq_true, if_false]
    rw [h1]

theorem C7_witness :
    collectAtoms (["----", "12 34"] ++ "ENERGY here" :: []) [] =
      .ok ([], "ENERGY here", []) ∧
    collectAtoms ["", "x"] [] = .error PyErr.indexError := by
  have h := C7_skip_and_blank ["----", "12 34"] "ENERGY here" [] [] (by decide) (by decide)
  exact ⟨h.1, h.2 "" ["x"] (by decide) (by decide)⟩

/-- `10 ^ (number of decimal digits of n)`, the weight a digit string of `n`
shifts a preceding accumulator by. -/
def digitWeight : Nat → Nat
  | 0 => 1
  | n + 1 => 10 * digitWeight ((n + 1) / 10)
termination_by n => n
decreasing_by exact Nat.div_lt_self (Nat.succ_pos n) (by omega)

theorem digitVal_ofNat {d : Nat} (h : d < 10) : digitVal (Char.ofNat (48 + d)) = d := by
  interval_cases d <;> decide

theorem isDigit_ofNat {d : Nat} (h : d < 10) : (Char.ofNat (48 + d)).isDigit = true := by
  interval_cases d <;> decide

theorem foldl_natToDigitsAux :
    ∀ (n : Nat) (acc : List Char) (a : Nat),
      (natToDigitsAux n acc).foldl digitStep a =
        acc.foldl digitStep (a * digitWeight n + n) := by
  intro n
  induction n using Nat.strong_induction_on with
  | _ n ih =>
    intro acc a
    rcases n with _ | m
    · simp [natToDigitsAux, digitWeight]
    · rw [natToDigitsAux, digitWeight]
      have hdv : digitVal (Char.ofNat (48 + (m + 1) % 10)) = (m + 1) % 10 :=
        digitVal_ofNat (show (m + 1) % 10 < 10 from Nat.mod_lt _ (by omega))
      rw [ih ((m + 1) / 10) (Nat.div_lt_self (Nat.succ_pos m) (by omega))]
      rw [List.foldl_cons]
      show acc.foldl digitStep
        (digitStep (a * digitWeight ((m + 1) / 10) + (m + 1) / 10)
          (Char.ofNat (48 + (m + 1) % 10))) = _
      unfold digitStep
      rw [hdv]
      congr 1
      have hdm := Nat.div_add_mod (m + 1) 10
      ring_nf
      omega

theorem natToDigits_read (n : Nat) : natOfDigits (natToDigits n) = n := by
  unfold natToDigits
  split
  · rename_i h; subst h; rfl
  · unfold natOfDigits
    rw [foldl_natToDigitsAux]
    simp

theorem natToDigitsAux_digits :
    ∀ (n : Nat) (acc : List Char), (∀ c ∈ acc, c.isDigit = true) →
      ∀ c ∈ natToDigitsAux n acc, c.isDigit = true := by
  intro n
  induction n using Nat.strong_induction_on with
  | _ n ih =>
    intro acc hacc c hc
    rcases n with _ | m
    · rw [natToDigitsAux] at hc
      exact hacc c hc
    · rw [natToDigitsAux] at hc
      refine ih ((m + 1) / 10) (Nat.div_lt_self (Nat.succ_pos m) (by omega)) _ ?_ c hc
      intro d hd
      rcases List.mem_cons.mp hd with rfl | hd'
      · exact isDigit_ofNat (Nat.mod_lt _ (by omega))
      · exact hacc d hd'

theorem natToDigits_digits (n : Nat) : ∀ c ∈ natToDigits n, c.isDigit = true := by
  unfold natToDigits
  split
  · intro c hc
    simp only [List.mem_singleton] at hc
    subst hc
    decide
  · exact natToDigitsAux_digits n [] (by simp)

theorem natToDigitsAux_length :
    ∀ (n : Nat) (acc : List Char) (k : Nat), n < 10 ^ k →
      (natToDigitsAux n acc).length ≤ k + acc.length := by
  intro n
  induction n using Nat.strong_induction_on with
  | _ n ih =>
    intro acc k hk
    rcases n with _ | m
    · rw [natToDigitsAux]
      omega
    · rw [natToDigitsAux]
      rcases k with _ | j
      · omega
      · have hd : (m + 1) / 10 < 10 ^ j := by
          have h10 : (10 : Nat) ^ (j + 1) = 10 ^ j * 10 := by ring
          rw [h10] at hk
          exact Nat.div_lt_of_lt_mul (by omega)
        have hlen := ih ((m + 1) / 10) (Nat.div_lt_self (Nat.succ_pos m) (by omega))
          (Char.ofNat (48 + (m + 1) % 10) :: acc) j hd
        simp only [List.length_cons] at hlen
        omega

theorem natToDigits_length {n k : Nat} (hn : n < 10 ^ k) (hk : 1 ≤ k) :
    (natToDigits n).length ≤ k := by
  unfold natToDigits
  split
  · simpa using hk
  · simpa using natToDigitsAux_length n [] k hn

theorem natToDigitsAux_length_ge :
    ∀ (n : Nat) (acc : List Char), acc.length ≤ (natToDigitsAux n acc).length := by
  intro n
  induction n using Nat.strong_induction_on with
  | _ n ih =>
    intro acc
    rcases n with _ | m
    · rw [natToDigitsAux]
    · rw [natToDigitsAux]
      have hlen := ih ((m + 1) / 10) (Nat.div_lt_self (Nat.succ_pos m) (by omega))
        (Char.ofNat (48 + (m + 1) % 10) :: acc)
      simp only [List.length_cons] at hlen
      omega

theorem natToDigits_ne_nil (n : Nat) : natToDigits n ≠ [] := by
  unfold natToDigits
  split
  · simp
  · rename_i h
    rcases n with _ | m
    · exact absurd rfl h
    · rw [natToDigitsAux]
      intro hcon
      have hlen := natToDigitsAux_length_ge ((m + 1) / 10)
        (Char.ofNat (48 + (m + 1) % 10) :: [])
      rw [hcon] at hlen
      simp at hlen

theorem padZerosL_length {w : Nat} {cs : List Char} (h : cs.length ≤ w) :
    (padZerosL w cs).length = w := by
  simp [padZerosL]
  omega

theorem padZerosL_digits {w : Nat} {cs : List Char} (h : ∀ c ∈ cs, c.isDigit = true) :
    ∀ c ∈ padZerosL w cs, c.isDigit = true := by
  intro c hc
  rcases List.mem_append.mp hc with hr | hcs
  · rw [List.eq_of_mem_replicate hr]
    decide
  · exact h c hcs

theorem foldl_zeros :
    ∀ (k : Nat) (cs : List Char),
      (List.replicate k '0' ++ cs).foldl digitStep 0 = cs.foldl digitStep 0 := by
  intro k
  induction k with
  | zero => simp
  | succ j ih =>
    intro cs
    rw [List.replicate_succ, List.cons_append, List.foldl_cons]
    rw [show digitStep 0 '0' = 0 from rfl]
    exact ih cs

theorem natOfDigits_pad {w : Nat} {cs : List Char} :
    natOfDigits (padZerosL w cs) = natOfDigits cs :=
  foldl_zeros _ cs

theorem pyWs_cases {c : Char} (h : pyWs c = true) :
    c = ' ' ∨ c = '\t' ∨ c = '\n' ∨ c = '\r' ∨ c = '\x0b' ∨ c = '\x0c' := by
  unfold pyWs at h
  simp only [Bool.or_eq_true, beq_iff_eq] at h
  tauto

theorem not_ws_of_isDigit {c : Char} (h : c.isDigit = true) : pyWs c = false := by
  by_contra hc
  rw [Bool.not_eq_false] at hc
  rcases pyWs_cases hc with rfl | rfl | rfl | rfl | rfl | rfl <;> exact absurd h (by decide)

theorem not_ws_of_isUpper {c : Char} (h : c.isUpper = true) : pyWs c = false := by
  by_contra hc
  rw [Bool.not_eq_false] at hc
  rcases pyWs_cases hc with rfl | rfl | rfl | rfl | rfl | rfl <;> exact absurd h (by decide)

theorem not_ws_of_isLower {c : Char} (h : c.isLower = true) : pyWs c = false := by
  by_contra hc
  rw [Bool.not_eq_false] at hc
  rcases pyWs_cases hc with rfl | rfl | rfl | rfl | rfl | rfl <;> exact absurd h (by decide)

theorem ne_of_isDigit {c x : Char} (h : c.isDigit = true) (hx : x.isDigit = false) :
    ¬ c = x := fun hcon => by rw [hcon] at h; rw [h] at hx; cases hx

theorem elem_chars {s : String} (h : isElem s = true) :
    s.data ≠ [] ∧ ∀ c ∈ s.data, pyWs c = false := by
  unfold isElem at h
  split at h
  · rename_i c heq
    refine ⟨by simp [heq], ?_⟩
    intro x hx
    rw [heq] at hx
    simp only [List.mem_singleton] at hx
    subst hx
    exact not_ws_of_isUpper h
  · rename_i c d heq
    simp only [Bool.and_eq_true] at h
    refine ⟨by simp [heq], ?_⟩
    intro x hx
    rw [heq] at hx
    rcases List.mem_cons.mp hx with rfl | hx'
    · exact not_ws_of_isUpper h.1
    · simp only [List.mem_singleton] at hx'
      subst hx'
      exact not_ws_of_isLower h.2
  · cases h

theorem mem_formatBody {A B : Nat} {c : Char}
    (hc : c ∈ natToDigits A ++ '.' :: padZerosL 6 (natToDigits B)) :
    c.isDigit = true ∨ c = '.' := by
  rcases List.mem_append.mp hc with h1 | h2
  · exact Or.inl (natToDigits_digits A c h1)
  · rcases List.mem_cons.mp h2 with rfl | h3
    · exact Or.inr rfl
    · exact Or.inl (padZerosL_digits (natToDigits_digits B) c h3)

theorem mem_formatChars6 {q : ℚ} {c : Char} (hc : c ∈ formatChars6 q) :
    c.isDigit = true ∨ c = '.' ∨ c = '-' := by
  simp only [formatChars6] at hc
  split at hc
  · rcases List.mem_cons.mp hc with rfl | hc'
    · exact Or.inr (Or.inr rfl)
    · rcases mem_formatBody hc' with h | h
      · exact Or.inl h
      · exact Or.inr (Or.inl h)
  · rcases mem_formatBody hc with h | h
    · exact Or.inl h
    · exact Or.inr (Or.inl h)

theorem formatChars6_not_ws {q : ℚ} : ∀ c ∈ formatChars6 q, pyWs c = false := by
  intro c hc
  rcases mem_formatChars6 hc with h | rfl | rfl
  · exact not_ws_of_isDigit h
  · decide
  · decide

theorem take_drop_while_of_all {α : Type} {p : α → Bool} :
    ∀ (xs : List α), (∀ c ∈ xs, p c = true) →
      xs.takeWhile p = xs ∧ xs.dropWhile p = [] := by
  intro xs h
  induction xs with
  | nil => exact ⟨rfl, rfl⟩
  | cons x tl ih =>
    have hx := h x (by simp)
    obtain ⟨h1, h2⟩ := ih (fun c hc => h c (by simp [hc]))
    rw [List.takeWhile_cons, List.dropWhile_cons, hx]
    simp [h1, h2]

theorem take_drop_while_append {α : Type} {p : α → Bool} :
    ∀ (xs : List α) (y : α) (ys : List α), (∀ c ∈ xs, p c = true) → p y = false →
      (xs ++ y :: ys).takeWhile p = xs ∧ (xs ++ y :: ys).dropWhile p = y :: ys := by
  intro xs y ys hxs hy
  induction xs with
  | nil =>
    rw [List.nil_append, List.takeWhile_cons, List.dropWhile_cons, hy]
    simp
  | cons x tl ih =>
    have hx := hxs x (by simp)
    obtain ⟨h1, h2⟩ := ih (fun c hc => hxs c (by simp [hc]))
    rw [List.cons_append, List.takeWhile_cons, List.dropWhile_cons, hx]
    simp [h1, h2]

theorem nat_div_mod_q (m : Nat) :
    ((m / 1000000 : ℕ) : ℚ) + ((m % 1000000 : ℕ) : ℚ) / 10 ^ 6 = (m : ℚ) / 1000000 := by
  have h := Nat.div_add_mod m 1000000
  have h' : ((1000000 * (m / 1000000) + m % 1000000 : ℕ) : ℚ) = (m : ℚ) := by
    exact_mod_cast congrArg Nat.cast h
  push_cast at h'
  rw [show ((10 : ℚ) ^ 6) = 1000000 from by norm_num]
  field_simp
  linarith

theorem parseMantissa_format {A B : Nat} (hB : B < 10 ^ 6) :
    parseMantissa? (natToDigits A ++ '.' :: padZerosL 6 (natToDigits B)) =
      some ((A : ℚ) + (B : ℚ) / 10 ^ 6) := by
  have hdigI : ∀ c ∈ natToDigits A, (fun c => !(c = '.')) c = true := by
    intro c hc
    have := ne_of_isDigit (natToDigits_digits A c hc) (show ('.').isDigit = false from rfl)
    simp [this]
  have hdot : (fun c => !(c = '.')) '.' = false := by simp
  obtain ⟨ht, hd⟩ := take_drop_while_append (natToDigits A) '.'
    (padZerosL 6 (natToDigits B)) hdigI hdot
  unfold parseMantissa?
  rw [ht, hd]
  have hlen : (padZerosL 6 (natToDigits B)).length = 6 :=
    padZerosL_length (natToDigits_length hB (by omega))
  have hne : (natToDigits A).isEmpty = false := by
    rcases hnil : natToDigits A with _ | ⟨c, cs⟩
    · exact absurd hnil (natToDigits_ne_nil A)
    · rfl
  have hallI : (natToDigits A).all Char.isDigit = true :=
    List.all_eq_true.mpr (natToDigits_digits A)
  have hallF : (padZerosL 6 (natToDigits B)).all Char.isDigit = true :=
    List.all_eq_true.mpr (padZerosL_digits (natToDigits_digits B))
  simp only [hne, hallI, hallF, Bool.not_false, Bool.true_or, Bool.and_self, if_true,
    Bool.true_and, Bool.and_true]
  rw [hlen]
  rw [show natOfDigits (padZerosL 6 (natToDigits B)) = B from
    natOfDigits_pad.trans (natToDigits_read B)]
  rw [natToDigits_read A]

theorem parseUnsigned_format {A B : Nat} (hB : B < 10 ^ 6) :
    parseUnsigned? (natToDigits A ++ '.' :: padZerosL 6 (natToDigits B)) =
      some ((A : ℚ) + (B : ℚ) / 10 ^ 6) := by
  have hall : ∀ c ∈ natToDigits A ++ '.' :: padZerosL 6 (natToDigits B),
      (fun c => !(c = 'e') && !(c = 'E')) c = true := by
    intro c hc
    rcases mem_formatBody hc with h | rfl
    · have h1 := ne_of_isDigit h (show ('e').isDigit = false from rfl)
      have h2 := ne_of_isDigit h (show ('E').isDigit = false from rfl)
      simp [h1, h2]
    · simp
  obtain ⟨ht, hd⟩ := take_drop_while_of_all _ hall
  unfold parseUnsigned?
  rw [ht, hd]
  exact parseMantissa_format hB

theorem int_cast_natAbs_q {n : ℤ} (h : ¬ n < 0) : ((n.natAbs : ℕ) : ℚ) = (n : ℚ) := by
  rw [Int.cast_natAbs, abs_of_nonneg (show (0 : ℤ) ≤ n from by omega)]

theorem int_cast_natAbs_neg_q {n : ℤ} (h : n < 0) : ((n.natAbs : ℕ) : ℚ) = -(n : ℚ) := by
  rw [Int.cast_natAbs, abs_of_neg h]
  push_cast
  ring

theorem pyFloatChars6_format (q : ℚ) : pyFloatChars? (formatChars6 q) = some (q6 q) := by
  simp only [formatChars6]
  split
  · rename_i hneg
    have hmod : (round6 q).natAbs % 1000000 < 10 ^ 6 := by
      have h1 : (round6 q).natAbs % 1000000 < 1000000 := Nat.mod_lt _ (by norm_num)
      simpa using h1
    simp only [pyFloatChars?, reduceIte]
    rw [if_neg (show ¬ ('-' = '+') from by decide)]
    rw [parseUnsigned_format hmod]
    rw [nat_div_mod_q]
    unfold q6
    rw [int_cast_natAbs_neg_q hneg]
    simp [neg_div]
  · rename_i hpos
    rcases hnil : natToDigits ((round6 q).natAbs / 1000000) with _ | ⟨c, cs⟩
    · exact absurd hnil (natToDigits_ne_nil _)
    · have hcdig : c.isDigit = true := by
        have hm : c ∈ natToDigits ((round6 q).natAbs / 1000000) := by
          rw [hnil]
          simp
        exact natToDigits_digits _ c hm
      simp only [pyFloatChars?, List.cons_append]
      rw [if_neg (ne_of_isDigit hcdig (show ('+').isDigit = false from rfl)),
        if_neg (ne_of_isDigit hcdig (show ('-').isDigit = false from rfl))]
      rw [show c :: (cs ++ '.' :: padZerosL 6 (natToDigits ((round6 q).natAbs % 1000000))) =
        (c :: cs) ++ '.' :: padZerosL 6 (natToDigits ((round6 q).natAbs % 1000000)) from rfl]
      rw [← hnil]
      have hmod : (round6 q).natAbs % 1000000 < 10 ^ 6 := by
        have h1 : (round6 q).natAbs % 1000000 < 1000000 := Nat.mod_lt _ (by norm_num)
        simpa using h1
      rw [parseUnsigned_format hmod]
      rw [nat_div_mod_q]
      unfold q6
      rw [int_cast_natAbs_q hpos]

theorem pyFloat_format (q : ℚ) : pyFloat? (formatFloat6 q) = some (q6 q) :=
  pyFloatChars6_format q

theorem round6_q6 (q : ℚ) : round6 (q6 q) = round6 q := by
  unfold q6 round6
  rw [div_mul_cancel₀ _ (show (1000000 : ℚ) ≠ 0 from by norm_num)]
  exact round_intCast _

theorem tokensAux_sep {xs : List Char} (hxs : ∀ c ∈ xs, pyWs c = false) :
    ∀ (acc : List Char) (rest : List Char), acc ≠ [] ∨ xs ≠ [] →
      tokensAux acc (xs ++ ' ' :: rest) = (acc.reverse ++ xs) :: tokensAux [] rest := by
  induction xs with
  | nil =>
    intro acc rest hne
    rcases hne with h | h
    · rw [List.nil_append, tokensAux]
      rw [if_pos (show pyWs ' ' = true from rfl), if_neg h]
      simp
    · exact absurd rfl h
  | cons x tl ih =>
    intro acc rest _
    have hx := hxs x (by simp)
    rw [List.cons_append, tokensAux, if_neg (by rw [hx]; exact Bool.false_ne_true)]
    rw [ih (fun c hc => hxs c (by simp [hc])) (x :: acc) rest (Or.inl (by simp))]
    simp

theorem tokensAux_last {xs : List Char} (hxs : ∀ c ∈ xs, pyWs c = false) :
    ∀ (acc : List Char), acc ≠ [] ∨ xs ≠ [] →
      tokensAux acc xs = [acc.reverse ++ xs] := by
  induction xs with
  | nil =>
    intro acc hne
    rcases hne with h | h
    · rw [tokensAux, if_neg h]
      simp
    · exact absurd rfl h
  | cons x tl ih =>
    intro acc _
    have hx := hxs x (by simp)
    rw [tokensAux, if_neg (by rw [hx]; exact Bool.false_ne_true)]
    rw [ih (fun c hc => hxs c (by simp [hc])) (x :: acc) (Or.inl (by simp))]
    simp

theorem hasPrefixChars_append_self :
    ∀ (xs ys : List Char), hasPrefixChars xs (xs ++ ys) = true := by
  intro xs ys
  induction xs with
  | nil => rfl
  | cons x tl ih => simp [hasPrefixChars, ih]

theorem afterMarker_self {m rest : List Char} (hm : m ≠ []) :
    afterMarker m (m ++ rest) = some rest := by
  rcases m with _ | ⟨c, cs⟩
  · exact absurd rfl hm
  · rw [List.cons_append, afterMarker]
    have hp : hasPrefixChars (c :: cs) (c :: (cs ++ rest)) = true := by
      have h := hasPrefixChars_append_self (c :: cs) rest
      simpa using h
    rw [if_pos hp]
    congr 1
    have h := List.drop_left (c :: cs) rest
    simpa using h

theorem afterMarker_skip {m' : List Char} :
    ∀ (xs rest : List Char), (∀ c ∈ xs, ¬ c = ' ') →
      afterMarker (' ' :: m') (xs ++ rest) = afterMarker (' ' :: m') rest := by
  intro xs
  induction xs with
  | nil => intro rest _; rfl
  | cons x tl ih =>
    intro rest h
    have hx := h x (by simp)
    rw [List.cons_append, afterMarker]
    rw [if_neg ?_]
    · exact ih rest (fun c hc => h c (by simp [hc]))
    · unfold hasPrefixChars
      intro hcon
      simp only [Bool.and_eq_true, beq_iff_eq] at hcon
      exact hx hcon.1.symm

theorem commentChars_label {en : ℚ} {label : String} :
    afterMarker (' ' :: "Label=".data) (commentChars en label) = some label.data := by
  show afterMarker (' ' :: "Label=".data)
    ("Energy=".data ++ formatChars6 en ++ " Label=".data ++ label.data) = some label.data
  have hsplit : "Energy=".data ++ formatChars6 en ++ " Label=".data ++ label.data =
      ("Energy=".data ++ formatChars6 en) ++ ((' ' :: "Label=".data) ++ label.data) := by
    have : (" Label=".data : List Char) = ' ' :: "Label=".data := rfl
    rw [this]
    simp [List.append_assoc]
  rw [hsplit]
  rw [afterMarker_skip _ _ ?_]
  · exact afterMarker_self (by simp)
  · intro c hc
    rcases List.mem_append.mp hc with h1 | h2
    · have : c ∈ ['E', 'n', 'e', 'r', 'g', 'y', '='] := h1
      fin_cases this <;> decide
    · rcases mem_formatChars6 h2 with hd | rfl | rfl
      · exact ne_of_isDigit hd (by decide)
      · decide
      · decide

/-- The atom `readAtomLine` recovers from a written atom line: same element,
coordinates rounded to six decimals. -/
def roundAtom (a : Atom) : Atom := ⟨a.el, q6 a.x, q6 a.y, q6 a.z⟩

theorem formatChars6_ne_nil (q : ℚ) : formatChars6 q ≠ [] := by
  simp only [formatChars6]
  split
  · simp
  · simp

theorem pyFloat_mk_format (q : ℚ) :
    pyFloat? (String.mk (formatChars6 q)) = some (q6 q) :=
  pyFloatChars6_format q

theorem pyTokens_atomLine {a : Atom} (hel : isElem a.el = true) :
    pyTokens (String.mk (atomLineChars a)) =
      [a.el, String.mk (formatChars6 a.x), String.mk (formatChars6 a.y),
        String.mk (formatChars6 a.z)] := by
  obtain ⟨hne, hnw⟩ := elem_chars hel
  show (tokensAux [] (a.el.data ++ ' ' :: (formatChars6 a.x ++ ' ' ::
    (formatChars6 a.y ++ ' ' :: formatChars6 a.z)))).map String.mk = _
  rw [tokensAux_sep hnw [] _ (Or.inr hne)]
  rw [tokensAux_sep formatChars6_not_ws [] _ (Or.inr (formatChars6_ne_nil _))]
  rw [tokensAux_sep formatChars6_not_ws [] _ (Or.inr (formatChars6_ne_nil _))]
  rw [tokensAux_last formatChars6_not_ws [] (Or.inr (formatChars6_ne_nil _))]
  rfl

theorem readAtomLine_format {a : Atom} (hel : isElem a.el = true) :
    readAtomLine (String.mk (atomLineChars a)) = some (roundAtom a) := by
  unfold readAtomLine
  rw [pyTokens_atomLine hel]
  simp only [pyFloat_mk_format]
  rfl

theorem readAtoms_map :
    ∀ (atoms : List Atom), (∀ a ∈ atoms, isElem a.el = true) →
      readAtoms (atoms.map (fun a => String.mk (atomLineChars a))) =
        some (atoms.map roundAtom) := by
  intro atoms h
  induction atoms with
  | nil => rfl
  | cons a tl ih =>
    simp only [List.map_cons, readAtoms, readAtomLine_format (h a (by simp)),
      ih (fun x hx => h x (by simp [hx]))]

theorem readFrames_cons (en : ℚ) (fr : Frame) (tail : List String)
    (hEl : ∀ a ∈ fr.atoms, isElem a.el = true) :
    readFrames (frameLinesOk en fr ++ tail) =
      (readFrames tail).map
        (fun more => (⟨fr.atoms.length, fr.label.data, fr.atoms.map roundAtom⟩ : RFrame)
          :: more) := by
  rw [show frameLinesOk en fr ++ tail =
    String.mk (natToDigits fr.atoms.length) :: String.mk (commentChars en fr.label) ::
      (fr.atoms.map (fun a => String.mk (atomLineChars a)) ++ tail) from by
    simp [frameLinesOk]]
  rw [readFrames]
  have hempty : (natToDigits fr.atoms.length).isEmpty = false := by
    rcases hn : natToDigits fr.atoms.length with _ | _
    · exact absurd hn (natToDigits_ne_nil _)
    · rfl
  have hcond : (!(String.mk (natToDigits fr.atoms.length)).data.isEmpty &&
      (String.mk (natToDigits fr.atoms.length)).data.all Char.isDigit) = true := by
    show (!(natToDigits fr.atoms.length).isEmpty &&
      (natToDigits fr.atoms.length).all Char.isDigit) = true
    rw [hempty, List.all_eq_true.mpr (natToDigits_digits _)]
    rfl
  rw [if_pos hcond]
  rw [show (String.mk (commentChars en fr.label)).data = commentChars en fr.label from rfl]
  rw [commentChars_label]
  rw [show (String.mk (natToDigits fr.atoms.length)).data =
    natToDigits fr.atoms.length from rfl]
  rw [natToDigits_read]
  have hlenmap : (fr.atoms.map (fun a => String.mk (atomLineChars a))).length =
      fr.atoms.length := List.length_map _ _
  have hle : fr.atoms.length ≤
      (fr.atoms.map (fun a => String.mk (atomLineChars a)) ++ tail).length := by
    rw [List.length_append, hlenmap]
    omega
  simp only [hle, if_true, List.take_left' hlenmap, List.drop_left' hlenmap,
    readAtoms_map fr.atoms hEl]
  cases readFrames tail <;> rfl

theorem readFrames_write (frames : List Frame)
    (hE : ∀ fr ∈ frames, fr.energy ≠ none)
    (hEl : ∀ fr ∈ frames, ∀ a ∈ fr.atoms, isElem a.el = true) :
    readFrames (write_xyz frames).1 =
      some (frames.map (fun fr =>
        (⟨fr.atoms.length, fr.label.data, fr.atoms.map roundAtom⟩ : RFrame))) := by
  induction frames with
  | nil =>
    show readFrames [] = some []
    rw [readFrames]
  | cons fr rest ih =>
    obtain ⟨en, hen⟩ := Option.ne_none_iff_exists'.mp (hE fr (by simp))
    have hw : (write_xyz (fr :: rest)).1 = frameLinesOk en fr ++ (write_xyz rest).1 := by
      simp [write_xyz, hen]
    rw [hw, readFrames_cons en fr _ (hEl fr (by simp))]
    rw [ih (fun x hx => hE x (by simp [hx])) (fun x hx => hEl x (by simp [hx]))]
    rfl

/-- C9: writing any sequence of data-model frames (energies present, element
symbols matching the element pattern) with the trajectory writer and
re-reading the produced text per the output format yields, for each frame,
the same atom count, the coordinates rounded to six decimals, and the same
label; and six-decimal rounding is idempotent, so the re-read coordinates
agree with the originals rounded to six decimals. -/
theorem C9_roundtrip (frames : List Frame)
    (hE : ∀ fr ∈ frames, fr.energy ≠ none)
    (hEl : ∀ fr ∈ frames, ∀ a ∈ fr.atoms, isElem a.el = true) :
    readFrames (write_xyz frames).1 =
      some (frames.map (fun fr =>
        (⟨fr.atoms.length, fr.label.data, fr.atoms.map roundAtom⟩ : RFrame))) ∧
    ∀ q : ℚ, round6 (q6 q) = round6 q :=
  ⟨readFrames_write frames hE hEl, round6_q6⟩

theorem C9_witness :
    readFrames (write_xyz [⟨some ((3 : ℚ) / 2), [⟨"H", 0, 0, (37 : ℚ) / 50⟩], "TS"⟩]).1 =
      some [⟨1, "TS".data, [⟨"H", q6 0, q6 0, q6 ((37 : ℚ) / 50)⟩]⟩] := by
  have h := C9_roundtrip [⟨some ((3 : ℚ) / 2), [⟨"H", 0, 0, (37 : ℚ) / 50⟩], "TS"⟩]
    (by decide) (by decide)
  simpa [roundAtom] using h.1

end Grrm
